import Mathlib

/-!
Verification of the P2P privacy communications node (src/main.py).

Python strings are modelled as lists of byte values (List Nat, values
below 256); Python bytes objects likewise.  The third-party Fernet
authenticated-encryption scheme used by CryptoManager is modelled as an
idealized deterministic AEAD token: a fixed 25-byte header (version and
key-derived material standing for timestamp and IV), the key-shifted
plaintext, and a perfect authentication tag modelled as a copy of the
authenticated bytes.  The base64 layer is modelled concretely, after the
behavior of the Python base64 module: the urlsafe alphabet for the
cipher, the standard alphabet for audio, and a lenient decoder, which
like Python does not validate the unused trailing bits of the final
group.  The UDP socket is modelled as an event stream; the result of a
socket write is an explicit boolean parameter; datetime.now is a string
parameter.
-/

def strBytes (s : String) : List Nat := s.toList.map Char.toNat

/-- Alphabet of base64, parameterized by the two final characters: 45 and
95 for the urlsafe variant, 43 and 47 for the standard one. -/
def b64IndexGen (c62 c63 v : Nat) : Nat :=
  if v < 26 then 65 + v
  else if v < 52 then 71 + v
  else if v < 62 then v - 4
  else if v = 62 then c62
  else c63

/-- Inverse of the base64 alphabet. -/
def b64ValGen (c62 c63 ch : Nat) : Option Nat :=
  if 65 ≤ ch ∧ ch ≤ 90 then some (ch - 65)
  else if 97 ≤ ch ∧ ch ≤ 122 then some (ch - 71)
  else if 48 ≤ ch ∧ ch ≤ 57 then some (ch + 4)
  else if ch = c62 then some 62
  else if ch = c63 then some 63
  else none

/-- Base64 encoding over byte lists, three input bytes per four output
characters, with padding character 61. -/
def b64EncodeGen (c62 c63 : Nat) : List Nat → List Nat
  | [] => []
  | [a] => [b64IndexGen c62 c63 (a / 4), b64IndexGen c62 c63 (a % 4 * 16), 61, 61]
  | [a, b] => [b64IndexGen c62 c63 (a / 4), b64IndexGen c62 c63 (a % 4 * 16 + b / 16),
      b64IndexGen c62 c63 (b % 16 * 4), 61]
  | a :: b :: c :: rest =>
      b64IndexGen c62 c63 (a / 4) :: b64IndexGen c62 c63 (a % 4 * 16 + b / 16) ::
      b64IndexGen c62 c63 (b % 16 * 4 + c / 64) :: b64IndexGen c62 c63 (c % 64) ::
      b64EncodeGen c62 c63 rest

/-- Base64 decoding, modelled after the Python decoder: groups of four
characters, padding allowed only at the end, and the unused trailing
bits of the final group are ignored rather than validated. -/
def b64DecodeGen (c62 c63 : Nat) : List Nat → Option (List Nat)
  | [] => some []
  | a :: b :: c :: d :: rest =>
      if c = 61 ∧ d = 61 ∧ rest = [] then
        match b64ValGen c62 c63 a, b64ValGen c62 c63 b with
        | some x, some y => some [x * 4 + y / 16]
        | _, _ => none
      else if d = 61 ∧ rest = [] then
        match b64ValGen c62 c63 a, b64ValGen c62 c63 b, b64ValGen c62 c63 c with
        | some x, some y, some z => some [x * 4 + y / 16, y % 16 * 16 + z / 4]
        | _, _, _ => none
      else
        match b64ValGen c62 c63 a, b64ValGen c62 c63 b, b64ValGen c62 c63 c,
            b64ValGen c62 c63 d, b64DecodeGen c62 c63 rest with
        | some x, some y, some z, some w, some ts =>
            some ((x * 4 + y / 16) :: (y % 16 * 16 + z / 4) :: (z % 4 * 64 + w) :: ts)
        | _, _, _, _, _ => none
  | _ => none

/-- base64.urlsafe_b64encode of the Python base64 module. -/
def base64urlEncode : List Nat → List Nat := b64EncodeGen 45 95

/-- base64.urlsafe_b64decode of the Python base64 module. -/
def base64urlDecode : List Nat → Option (List Nat) := b64DecodeGen 45 95

/-- base64.b64encode (standard alphabet) of the Python base64 module. -/
def base64Encode : List Nat → List Nat := b64EncodeGen 43 47

/-- base64.b64decode (standard alphabet) of the Python base64 module. -/
def base64Decode : List Nat → Option (List Nat) := b64DecodeGen 43 47

/-- Header of the idealized Fernet token: the version byte 128 followed
by 24 key-derived bytes standing for the timestamp and IV fields. -/
def fernetHeader (key : Nat) : List Nat := 128 :: List.replicate 24 (key % 256)

/-- Authenticated part of the idealized Fernet token: header followed by
the key-shifted plaintext bytes. -/
def fernetBody (key : Nat) (p : List Nat) : List Nat :=
  fernetHeader key ++ p.map (fun b => (b + key) % 256)

/-- Idealized Fernet encryption: the authenticated body followed by a
perfect authentication tag, modelled as a copy of the body. -/
def fernetEncrypt (key : Nat) (p : List Nat) : List Nat :=
  fernetBody key p ++ fernetBody key p

/-- Idealized Fernet decryption: checks the token shape, the tag and the
header, then inverts the key shift; any failure yields none, standing
for the InvalidToken exception of the library. -/
def fernetDecrypt (key : Nat) (t : List Nat) : Option (List Nat) :=
  let n := t.length
  if n % 2 = 0 ∧ 50 ≤ n then
    let body := t.take (n / 2)
    let tag := t.drop (n / 2)
    if tag = body ∧ body.take 25 = fernetHeader key then
      some ((body.drop 25).map (fun b => (b + (256 - key % 256)) % 256))
    else none
  else none

/-- CryptoManager of src/main.py.  The PBKDF2 derivation from password
and random salt is third-party code; the derived key is modelled as an
opaque natural number, and every theorem quantifies over it. -/
structure CryptoManager where
  key : Nat
deriving DecidableEq

/-- CryptoManager.encrypt: Fernet-encrypt the message bytes, then
urlsafe-base64-encode the token for transmission. -/
def CryptoManager.encrypt (cm : CryptoManager) (message : List Nat) : List Nat :=
  base64urlEncode (fernetEncrypt cm.key message)

/-- Sentinel string returned by CryptoManager.decrypt when decryption
fails; the string DECRYPTION FAILED in brackets. -/
def decryptFailedSentinel : List Nat := strBytes "[DECRYPTION FAILED]"

/-- CryptoManager.decrypt: urlsafe-base64-decode then Fernet-decrypt;
any exception is caught and the sentinel string is returned. -/
def CryptoManager.decrypt (cm : CryptoManager) (encrypted_message : List Nat) : List Nat :=
  match base64urlDecode encrypted_message with
  | none => decryptFailedSentinel
  | some token =>
      match fernetDecrypt cm.key token with
      | none => decryptFailedSentinel
      | some p => p

/-- Wire packet of src/main.py, a JSON object of five fields; each field
is read with dict.get on the receive side, so every field is optional. -/
structure Packet where
  ptype : Option (List Nat)
  sender : Option (List Nat)
  recipient : Option (List Nat)
  message : Option (List Nat)
  timestamp : Option (List Nat)
deriving DecidableEq

/-- Observable effects of a node operation: transmitted datagrams, UI
callback invocations, and audio-collaborator calls. -/
inductive Event where
  | sent : List Nat → Nat → Packet → Event
  | msgCb : Option (List Nat) → List Nat → List Nat → Event
  | callCb : List Nat → Option (List Nat) → Event
  | audioPlay : List Nat → Event
  | audioStartRecording : Event
  | audioStopRecording : Event
deriving DecidableEq

/-- Mutable state of P2PNode: username, the peer table, the in-call flag
and current call partner, the running flag of the receive loop, and
whether the two UI callbacks are registered. -/
structure NodeState where
  username : List Nat
  peers : List (List Nat × (List Nat × Nat))
  in_call : Bool
  call_partner : Option (List Nat)
  running : Bool
  message_callback_set : Bool
  call_callback_set : Bool
deriving DecidableEq

/-- Lookup in a Python dict modelled as an association list. -/
def dictGet {α : Type} : List (List Nat × α) → List Nat → Option α
  | [], _ => none
  | (k, v) :: rest, key => if k = key then some v else dictGet rest key

def tokText : List Nat := strBytes "text"
def tokCall : List Nat := strBytes "call"
def tokAudio : List Nat := strBytes "audio"
def tokLink : List Nat := strBytes "link"
def tokCallRequest : List Nat := strBytes "call_request"
def tokCallAccepted : List Nat := strBytes "call_accepted"
def tokCallEnded : List Nat := strBytes "call_ended"
def tokCallRejected : List Nat := strBytes "call_rejected"
def tokReceived : List Nat := strBytes "received"
def tokIncoming : List Nat := strBytes "incoming"
def tokAccepted : List Nat := strBytes "accepted"
def tokEnded : List Nat := strBytes "ended"
def tokSharedLinkLabel : List Nat := strBytes "Shared link: "

/-- P2PNode.send_message: look up the recipient, encrypt the message,
build the packet stamped with the current time, and attempt the socket
write; sendOk models whether socket.sendto raises.  Returns the success
flag and the emitted datagrams; the node state is never mutated. -/
def send_message (cm : CryptoManager) (s : NodeState)
    (recipient message msg_type now : List Nat) (sendOk : Bool) : Bool × List Event :=
  match dictGet s.peers recipient with
  | none => (false, [])
  | some (ip, port) =>
      let packet : Packet :=
        { ptype := some msg_type, sender := some s.username, recipient := some recipient,
          message := some (CryptoManager.encrypt cm message), timestamp := some now }
      if sendOk then (true, [Event.sent ip port packet]) else (false, [])

/-- P2PNode.start_call: refuse if the in-call flag is set; otherwise
send a call_request call packet and, on success, record the recipient
as the call partner. -/
def start_call (cm : CryptoManager) (s : NodeState) (recipient now : List Nat)
    (sendOk : Bool) : Bool × NodeState × List Event :=
  if s.in_call then (false, s, [])
  else
    let r := send_message cm s recipient tokCallRequest tokCall now sendOk
    if r.1 then (true, { s with call_partner := some recipient }, r.2)
    else (false, s, r.2)

/-- P2PNode.accept_call: refuse if the in-call flag is set; otherwise
set the flag and partner, send call_accepted ignoring its success, start
audio capture, and return true. -/
def accept_call (cm : CryptoManager) (s : NodeState) (caller now : List Nat)
    (sendOk : Bool) : Bool × NodeState × List Event :=
  if s.in_call then (false, s, [])
  else
    let s' := { s with in_call := true, call_partner := some caller }
    let r := send_message cm s' caller tokCallAccepted tokCall now sendOk
    (true, s', r.2 ++ [Event.audioStartRecording])

/-- P2PNode.end_call: no-op when the in-call flag is clear; otherwise
send call_ended to the partner when one is recorded, clear the call
state and stop audio capture. -/
def end_call (cm : CryptoManager) (s : NodeState) (now : List Nat)
    (sendOk : Bool) : NodeState × List Event :=
  if s.in_call then
    let evs :=
      match s.call_partner with
      | some p => (send_message cm s p tokCallEnded tokCall now sendOk).2
      | none => []
    ({ s with in_call := false, call_partner := none }, evs ++ [Event.audioStopRecording])
  else (s, [])

/-- P2PNode._send_audio: during a call with a recorded partner, encode
the chunk with standard base64 and send it as an audio packet through
send_message. -/
def send_audio (cm : CryptoManager) (s : NodeState) (audio_data now : List Nat)
    (sendOk : Bool) : List Event :=
  if s.in_call then
    match s.call_partner with
    | some p => (send_message cm s p (base64Encode audio_data) tokAudio now sendOk).2
    | none => []
  else []

/-- Decryption of an optional field: crypto.decrypt applied to a missing
field raises inside its own try block in the source and therefore also
yields the sentinel. -/
def decryptOpt (cm : CryptoManager) : Option (List Nat) → List Nat
  | none => decryptFailedSentinel
  | some m => CryptoManager.decrypt cm m

/-- P2PNode._handle_packet: dispatch an inbound packet by its type
field, with the exact branch structure of the source.  Note that call
payloads are compared against the literal control tokens without
decryption, that the sender of call packets is never checked, and that
there is no branch for call_rejected. -/
def handle_packet (cm : CryptoManager) (s : NodeState) (packet : Packet) :
    NodeState × List Event :=
  let msg_type := packet.ptype
  let sender := packet.sender
  let message := packet.message
  if msg_type = some tokText then
    let decrypted_msg := decryptOpt cm message
    (s, if s.message_callback_set then [Event.msgCb sender decrypted_msg tokReceived] else [])
  else if msg_type = some tokCall then
    if message = some tokCallRequest then
      (s, if s.call_callback_set then [Event.callCb tokIncoming sender] else [])
    else if message = some tokCallAccepted then
      ({ s with in_call := true },
        Event.audioStartRecording ::
          (if s.call_callback_set then [Event.callCb tokAccepted sender] else []))
    else if message = some tokCallEnded then
      ({ s with in_call := false, call_partner := none },
        Event.audioStopRecording ::
          (if s.call_callback_set then [Event.callCb tokEnded sender] else []))
    else (s, [])
  else if msg_type = some tokAudio then
    if s.in_call ∧ sender = s.call_partner then
      (s, match message with
          | none => []
          | some m =>
              match base64Decode m with
              | some d => [Event.audioPlay d]
              | none => [])
    else (s, [])
  else if msg_type = some tokLink then
    let decrypted_link := decryptOpt cm message
    (s, if s.message_callback_set then
          [Event.msgCb sender (tokSharedLinkLabel ++ decrypted_link) tokLink]
        else [])
  else (s, [])

/-- Inbound datagram as seen by P2PNode._listen: either its payload
parses as a JSON packet, or json.loads raises. -/
inductive Datagram where
  | valid : Packet → Datagram
  | malformed : Datagram
deriving DecidableEq

/-- One iteration of the receive loop body: a malformed datagram is
caught by the try block, logged and dropped; a valid packet goes to
the handler. -/
def listenStep (cm : CryptoManager) (s : NodeState) (d : Datagram) :
    NodeState × List Event :=
  match d with
  | Datagram.malformed => (s, [])
  | Datagram.valid p => handle_packet cm s p

/-- P2PNode._listen: process inbound datagrams while the running flag is
set. -/
def listenRun (cm : CryptoManager) (s : NodeState) : List Datagram → NodeState × List Event
  | [] => (s, [])
  | d :: ds =>
      if s.running then
        let r := listenStep cm s d
        let r' := listenRun cm r.1 ds
        (r'.1, r.2 ++ r'.2)
      else (s, [])

/-- Receive loop with the guard dropped: every datagram is processed. -/
def listenAll (cm : CryptoManager) (s : NodeState) : List Datagram → NodeState × List Event
  | [] => (s, [])
  | d :: ds =>
      let r := listenStep cm s d
      let r' := listenAll cm r.1 ds
      (r'.1, r.2 ++ r'.2)

/-- Example cipher context with derived key 0, used in concrete checks. -/
def cm0 : CryptoManager := ⟨0⟩

/-- Example cipher context with derived key 7, used in concrete checks. -/
def cm7 : CryptoManager := ⟨7⟩

/-- Example host string for concrete checks. -/
def hostA : List Nat := strBytes "localhost"

/-- Example idle receiving node with both callbacks registered. -/
def demoIdle : NodeState :=
  { username := strBytes "bob", peers := [], in_call := false, call_partner := none,
    running := true, message_callback_set := true, call_callback_set := true }

/-- Example idle node that knows the peer bob. -/
def demoAlice : NodeState :=
  { username := strBytes "alice", peers := [(strBytes "bob", (hostA, 9001))],
    in_call := false, call_partner := none, running := true,
    message_callback_set := true, call_callback_set := true }

/-- Example node with a pending outbound call to bob, in-call flag still
clear, that also knows the peer carol. -/
def demoPending : NodeState :=
  { username := strBytes "alice", peers := [(strBytes "carol", (hostA, 9000))],
    in_call := false, call_partner := some (strBytes "bob"), running := true,
    message_callback_set := true, call_callback_set := true }

/-- Example node in an active call with bob. -/
def demoActive : NodeState :=
  { username := strBytes "alice", peers := [(strBytes "bob", (hostA, 9001))],
    in_call := true, call_partner := some (strBytes "bob"), running := true,
    message_callback_set := true, call_callback_set := true }

/-- Decoding inverts the urlsafe alphabet on six-bit values. -/
theorem b64Val_b64Index : ∀ v < 64, b64ValGen 45 95 (b64IndexGen 45 95 v) = some v := by
  decide

/-- The urlsafe alphabet never produces the padding character. -/
theorem b64Index_ne_61 (v : Nat) : b64IndexGen 45 95 v ≠ 61 := by
  unfold b64IndexGen
  split
  · omega
  split
  · omega
  split
  · omega
  split
  · omega
  · omega

/-- The padding character is not in the urlsafe alphabet. -/
theorem b64Val_61 : b64ValGen 45 95 61 = none := by decide

/-- Encoding a nonempty byte list yields a nonempty string. -/
theorem b64EncodeGen_ne_nil (c62 c63 : Nat) (t : List Nat) (h : t ≠ []) :
    b64EncodeGen c62 c63 t ≠ [] := by
  match t with
  | [] => exact absurd rfl h
  | [a] => simp [b64EncodeGen]
  | [a, b] => simp [b64EncodeGen]
  | a :: b :: c :: rest => simp [b64EncodeGen]

/-- The base64 encoding is at least as long as its input. -/
theorem b64EncodeGen_length_ge (c62 c63 : Nat) :
    ∀ t : List Nat, t.length ≤ (b64EncodeGen c62 c63 t).length
  | [] => by simp [b64EncodeGen]
  | [a] => by simp [b64EncodeGen]
  | [a, b] => by simp [b64EncodeGen]
  | a :: b :: c :: rest => by
      have ih := b64EncodeGen_length_ge c62 c63 rest
      simp only [b64EncodeGen, List.length_cons]
      omega

/-- Decoding inverts encoding for byte lists, urlsafe alphabet. -/
theorem b64url_roundtrip : ∀ t : List Nat, (∀ b ∈ t, b < 256) →
    base64urlDecode (base64urlEncode t) = some t
  | [], _ => rfl
  | [a], h => by
      have ha : a < 256 := h a (by simp)
      have h1 := b64Val_b64Index (a / 4) (by omega)
      have h2 := b64Val_b64Index (a % 4 * 16) (by omega)
      simp only [base64urlEncode, base64urlDecode, b64EncodeGen, b64DecodeGen]
      simp only [h1, h2, and_self, if_true, and_true, true_and, if_pos rfl]
      simp only [Option.some.injEq, List.cons.injEq, and_true]
      omega
  | [a, b], h => by
      have ha : a < 256 := h a (by simp)
      have hb : b < 256 := h b (by simp)
      have h1 := b64Val_b64Index (a / 4) (by omega)
      have h2 := b64Val_b64Index (a % 4 * 16 + b / 16) (by omega)
      have h3 := b64Val_b64Index (b % 16 * 4) (by omega)
      have hc := b64Index_ne_61 (b % 16 * 4)
      simp only [base64urlEncode, base64urlDecode, b64EncodeGen, b64DecodeGen]
      rw [if_neg (by simp [hc]), if_pos (by simp)]
      simp only [h1, h2, h3, Option.some.injEq, List.cons.injEq, and_true]
      constructor
      · omega
      · omega
  | a :: b :: c :: rest, h => by
      have ha : a < 256 := h a (by simp)
      have hb : b < 256 := h b (by simp)
      have hc : c < 256 := h c (by simp)
      have ih := b64url_roundtrip rest (fun x hx => h x (by simp [hx]))
      have h1 := b64Val_b64Index (a / 4) (by omega)
      have h2 := b64Val_b64Index (a % 4 * 16 + b / 16) (by omega)
      have h3 := b64Val_b64Index (b % 16 * 4 + c / 64) (by omega)
      have h4 := b64Val_b64Index (c % 64) (by omega)
      have hne3 := b64Index_ne_61 (b % 16 * 4 + c / 64)
      have hne4 := b64Index_ne_61 (c % 64)
      simp only [base64urlEncode, base64urlDecode, b64EncodeGen, b64DecodeGen]
      rw [if_neg (by simp [hne3]), if_neg (by simp [hne4])]
      simp only [base64urlDecode, base64urlEncode] at ih
      simp only [h1, h2, h3, h4, ih, Option.some.injEq, List.cons.injEq, and_true]
      refine ⟨by omega, by omega, by omega⟩

/-- Length of the authenticated body. -/
theorem fernetBody_length (key : Nat) (p : List Nat) :
    (fernetBody key p).length = 25 + p.length := by
  simp only [fernetBody, fernetHeader, List.length_append, List.length_cons,
    List.length_map, List.length_replicate]

/-- Length of the idealized Fernet token. -/
theorem fernetEncrypt_length (key : Nat) (p : List Nat) :
    (fernetEncrypt key p).length = 50 + 2 * p.length := by
  simp [fernetEncrypt, fernetBody, fernetHeader]
  omega

/-- Every byte of the idealized Fernet token is below 256. -/
theorem fernetEncrypt_bytes_lt (key : Nat) (p : List Nat) :
    ∀ b ∈ fernetEncrypt key p, b < 256 := by
  intro b hb
  simp only [fernetEncrypt, fernetBody, fernetHeader, List.mem_append, List.mem_cons,
    List.mem_map, List.mem_replicate] at hb
  rcases hb with ((rfl | ⟨-, rfl⟩) | ⟨a, -, rfl⟩) | ((rfl | ⟨-, rfl⟩) | ⟨a, -, rfl⟩) <;> omega

/-- Fernet decryption inverts Fernet encryption under the same key. -/
theorem fernet_roundtrip (key : Nat) (p : List Nat) (hp : ∀ b ∈ p, b < 256) :
    fernetDecrypt key (fernetEncrypt key p) = some p := by
  have hhead : (fernetHeader key).length = 25 := by simp [fernetHeader]
  have hhalf : (50 + 2 * p.length) / 2 = (fernetBody key p).length := by
    rw [fernetBody_length]; omega
  simp only [fernetDecrypt, fernetEncrypt_length]
  rw [if_pos (by omega)]
  simp only [fernetEncrypt, hhalf, List.take_left, List.drop_left]
  rw [if_pos ⟨trivial, by
    simp only [fernetBody]
    rw [← hhead, List.take_left]⟩]
  simp only [fernetBody]
  rw [← hhead, List.drop_left, List.map_map]
  have : ∀ b ∈ p, (((b + key) % 256 + (256 - key % 256)) % 256) = b := by
    intro b hb
    have := hp b hb
    omega
  rw [Option.some.injEq]
  calc p.map _ = p.map id := List.map_congr_left (by
        intro a ha
        simpa using this a ha)
    _ = p := List.map_id p

/-- A token of odd length is rejected by Fernet decryption. -/
theorem fernetDecrypt_odd (key : Nat) (t : List Nat) (h : t.length % 2 = 1) :
    fernetDecrypt key t = none := by
  simp only [fernetDecrypt]
  rw [if_neg (by omega)]

/-- A token of the length of an honest token that agrees with it outside
a window of three positions either is rejected or is the honest token:
the copy tag cannot validate a change confined to such a window. -/
theorem fernetDecrypt_window (key : Nat) (p : List Nat) (t' : List Nat) (j : Nat)
    (hlen : t'.length = (fernetEncrypt key p).length)
    (hagree : ∀ k, k < j ∨ j + 3 ≤ k → t'[k]? = (fernetEncrypt key p)[k]?) :
    fernetDecrypt key t' = none ∨ t' = fernetEncrypt key p := by
  by_cases hdec : fernetDecrypt key t' = none
  · exact Or.inl hdec
  right
  have hm : 25 ≤ (fernetBody key p).length := by rw [fernetBody_length]; omega
  have htok : (fernetEncrypt key p).length = 2 * (fernetBody key p).length := by
    rw [fernetEncrypt_length, fernetBody_length]; omega
  have hlen2 : t'.length = 2 * (fernetBody key p).length := by rw [hlen, htok]
  have hhalf : t'.length / 2 = (fernetBody key p).length := by omega
  simp only [fernetDecrypt] at hdec
  by_cases h1 : t'.length % 2 = 0 ∧ 50 ≤ t'.length
  · rw [if_pos h1] at hdec
    by_cases h2 : t'.drop (t'.length / 2) = t'.take (t'.length / 2) ∧
        (t'.take (t'.length / 2)).take 25 = fernetHeader key
    · have hdrop : t'.drop ((fernetBody key p).length) = t'.take ((fernetBody key p).length) := by
        rw [← hhalf]; exact h2.1
      have hdup : ∀ k, k < (fernetBody key p).length →
          t'[(fernetBody key p).length + k]? = t'[k]? := by
        intro k hk
        have e1 : t'[(fernetBody key p).length + k]? =
            (t'.drop ((fernetBody key p).length))[k]? := by
          rw [List.getElem?_drop]
        rw [e1, hdrop, List.getElem?_take, if_pos hk]
      have hdupT : ∀ k, k < (fernetBody key p).length →
          (fernetEncrypt key p)[(fernetBody key p).length + k]? = (fernetEncrypt key p)[k]? := by
        intro k hk
        simp only [fernetEncrypt]
        rw [List.getElem?_append_right (by omega), List.getElem?_append_left hk]
        simp
      apply List.ext_getElem?
      intro k
      by_cases hout : k < j ∨ j + 3 ≤ k
      · exact hagree k hout
      push_neg at hout
      obtain ⟨hkj, hkj3⟩ := hout
      by_cases hbig : 2 * (fernetBody key p).length ≤ k
      · rw [List.getElem?_eq_none (by omega), List.getElem?_eq_none (by omega)]
      push_neg at hbig
      by_cases hklo : k < (fernetBody key p).length
      · have e1 := hdup k hklo
        have e2 : t'[(fernetBody key p).length + k]? =
            (fernetEncrypt key p)[(fernetBody key p).length + k]? :=
          hagree _ (Or.inr (by omega))
        rw [← e1, e2, hdupT k hklo]
      · push_neg at hklo
        have hk0 : k - (fernetBody key p).length < (fernetBody key p).length := by omega
        have hksplit : k = (fernetBody key p).length + (k - (fernetBody key p).length) := by
          omega
        have e1 := hdup (k - (fernetBody key p).length) hk0
        have e2 : t'[k - (fernetBody key p).length]? =
            (fernetEncrypt key p)[k - (fernetBody key p).length]? :=
          hagree _ (Or.inl (by omega))
        have e3 := hdupT (k - (fernetBody key p).length) hk0
        rw [hksplit, e1, e2, ← e3]
    · rw [if_neg h2] at hdec
      exact absurd rfl hdec
  · rw [if_neg h1] at hdec
    exact absurd rfl hdec

/-- Two lists of length at most three agree past index two. -/
theorem shortAgree (u v : List Nat) (hu : u.length ≤ 3) (hv : v.length ≤ 3)
    (k : Nat) (hk : 3 ≤ k) : u[k]? = v[k]? := by
  rw [List.getElem?_eq_none (by omega), List.getElem?_eq_none (by omega)]

/-- Lists with a common tail after three heads agree past index two. -/
theorem consAgree3 (x y z a b c : Nat) (rest : List Nat) (k : Nat) (hk : 3 ≤ k) :
    (x :: y :: z :: rest)[k]? = (a :: b :: c :: rest)[k]? := by
  obtain ⟨k0, rfl⟩ : ∃ k0, k = k0 + 3 := ⟨k - 3, by omega⟩
  simp only [List.getElem?_cons_succ]

/-- Replacing one character of an encoded byte list either breaks
decoding, or decodes to a list of the other parity (a padding-shape
change in the final group), or decodes to a list of the same length that
agrees with the original outside the three bytes of the affected group:
the decoder processes four-character groups independently. -/
theorem b64url_local : ∀ t : List Nat, (∀ b ∈ t, b < 256) → ∀ i c : Nat,
    base64urlDecode ((base64urlEncode t).set i c) = none ∨
    ∃ t', base64urlDecode ((base64urlEncode t).set i c) = some t' ∧
      ((t'.length = t.length ∧
          ∀ k, k < 3 * (i / 4) ∨ 3 * (i / 4) + 3 ≤ k → t'[k]? = t[k]?) ∨
        t'.length % 2 ≠ t.length % 2)
  | [], _, i, c => by
      right
      refine ⟨[], ?_, Or.inl ⟨rfl, fun k _ => rfl⟩⟩
      have hnil : ((base64urlEncode []).set i c) = [] := by
        apply List.set_eq_of_length_le
        simp [base64urlEncode, b64EncodeGen]
      rw [hnil]
      rfl
  | [a], h, i, c => by
      have ha : a < 256 := h a (by simp)
      have h1 := b64Val_b64Index (a / 4) (by omega)
      have h2 := b64Val_b64Index (a % 4 * 16) (by omega)
      simp only [base64urlEncode, base64urlDecode, b64EncodeGen]
      rcases i with - | - | - | - | i0
      · simp only [List.set_cons_zero, b64DecodeGen]
        rw [if_pos (by simp), h2]
        rcases hVc : b64ValGen 45 95 c with - | x
        · left; rfl
        · right
          refine ⟨_, rfl, Or.inl ⟨by simp, ?_⟩⟩
          intro k hk
          exact shortAgree _ _ (by simp) (by simp) k (by omega)
      · simp only [List.set_cons_succ, List.set_cons_zero, b64DecodeGen]
        rw [if_pos (by simp), h1]
        rcases hVc : b64ValGen 45 95 c with - | x
        · left; rfl
        · right
          refine ⟨_, rfl, Or.inl ⟨by simp, ?_⟩⟩
          intro k hk
          exact shortAgree _ _ (by simp) (by simp) k (by omega)
      · by_cases hc61 : c = 61
        · subst hc61
          simp only [List.set_cons_succ, List.set_cons_zero, b64DecodeGen]
          rw [if_pos (by simp), h1, h2]
          right
          refine ⟨_, rfl, Or.inl ⟨by simp, ?_⟩⟩
          intro k hk
          exact shortAgree _ _ (by simp) (by simp) k (by omega)
        · simp only [List.set_cons_succ, List.set_cons_zero, b64DecodeGen]
          rw [if_neg (by simp [hc61]), if_pos (by simp), h1, h2]
          rcases hVc : b64ValGen 45 95 c with - | x
          · left; rfl
          · right
            refine ⟨_, rfl, Or.inr (by simp)⟩
      · by_cases hc61 : c = 61
        · subst hc61
          simp only [List.set_cons_succ, List.set_cons_zero, b64DecodeGen]
          rw [if_pos (by simp), h1, h2]
          right
          refine ⟨_, rfl, Or.inl ⟨by simp, ?_⟩⟩
          intro k hk
          exact shortAgree _ _ (by simp) (by simp) k (by omega)
        · simp only [List.set_cons_succ, List.set_cons_zero, b64DecodeGen]
          rw [if_neg (by simp [hc61]), if_neg (by simp [hc61]), h1, h2, b64Val_61]
          left; rfl
      · have hset : ([b64IndexGen 45 95 (a / 4), b64IndexGen 45 95 (a % 4 * 16), 61,
            61].set (i0 + 4) c) = [b64IndexGen 45 95 (a / 4),
            b64IndexGen 45 95 (a % 4 * 16), 61, 61] :=
          List.set_eq_of_length_le (by simp)
        rw [hset]
        right
        refine ⟨[a], ?_, Or.inl ⟨rfl, fun k _ => rfl⟩⟩
        have e1 : a / 4 * 4 + a % 4 * 16 / 16 = a := by omega
        simp only [b64DecodeGen]
        rw [if_pos (by simp)]
        simp only [h1, h2, e1]
  | [a, b], h, i, c => by
      have ha : a < 256 := h a (by simp)
      have hb : b < 256 := h b (by simp)
      have h1 := b64Val_b64Index (a / 4) (by omega)
      have h2 := b64Val_b64Index (a % 4 * 16 + b / 16) (by omega)
      have h3 := b64Val_b64Index (b % 16 * 4) (by omega)
      have hne3 := b64Index_ne_61 (b % 16 * 4)
      simp only [base64urlEncode, base64urlDecode, b64EncodeGen]
      rcases i with - | - | - | - | i0
      · simp only [List.set_cons_zero, b64DecodeGen]
        rw [if_neg (by simp [hne3]), if_pos (by simp), h2, h3]
        rcases hVc : b64ValGen 45 95 c with - | x
        · left; rfl
        · right
          refine ⟨_, rfl, Or.inl ⟨by simp, ?_⟩⟩
          intro k hk
          exact shortAgree _ _ (by simp) (by simp) k (by omega)
      · simp only [List.set_cons_succ, List.set_cons_zero, b64DecodeGen]
        rw [if_neg (by simp [hne3]), if_pos (by simp), h1, h3]
        rcases hVc : b64ValGen 45 95 c with - | x
        · left; rfl
        · right
          refine ⟨_, rfl, Or.inl ⟨by simp, ?_⟩⟩
          intro k hk
          exact shortAgree _ _ (by simp) (by simp) k (by omega)
      · by_cases hc61 : c = 61
        · subst hc61
          simp only [List.set_cons_succ, List.set_cons_zero, b64DecodeGen]
          rw [if_pos (by simp), h1, h2]
          right
          refine ⟨_, rfl, Or.inr (by simp)⟩
        · simp only [List.set_cons_succ, List.set_cons_zero, b64DecodeGen]
          rw [if_neg (by simp [hc61]), if_pos (by simp), h1, h2]
          rcases hVc : b64ValGen 45 95 c with - | x
          · left; rfl
          · right
            refine ⟨_, rfl, Or.inl ⟨by simp, ?_⟩⟩
            intro k hk
            exact shortAgree _ _ (by simp) (by simp) k (by omega)
      · by_cases hc61 : c = 61
        · subst hc61
          simp only [List.set_cons_succ, List.set_cons_zero, b64DecodeGen]
          rw [if_neg (by simp [hne3]), if_pos (by simp), h1, h2, h3]
          right
          refine ⟨_, rfl, Or.inl ⟨by simp, ?_⟩⟩
          intro k hk
          exact shortAgree _ _ (by simp) (by simp) k (by omega)
        · simp only [List.set_cons_succ, List.set_cons_zero, b64DecodeGen]
          rw [if_neg (by simp [hne3]), if_neg (by simp [hc61]), h1, h2, h3]
          rcases hVc : b64ValGen 45 95 c with - | x
          · left; rfl
          · right
            refine ⟨_, rfl, Or.inr (by simp)⟩
      · have hset : ([b64IndexGen 45 95 (a / 4), b64IndexGen 45 95 (a % 4 * 16 + b / 16),
            b64IndexGen 45 95 (b % 16 * 4), 61].set (i0 + 4) c) =
            [b64IndexGen 45 95 (a / 4), b64IndexGen 45 95 (a % 4 * 16 + b / 16),
            b64IndexGen 45 95 (b % 16 * 4), 61] :=
          List.set_eq_of_length_le (by simp)
        rw [hset]
        right
        refine ⟨[a, b], ?_, Or.inl ⟨rfl, fun k _ => rfl⟩⟩
        have e1 : a / 4 * 4 + (a % 4 * 16 + b / 16) / 16 = a := by omega
        have e2 : (a % 4 * 16 + b / 16) % 16 * 16 + b % 16 * 4 / 4 = b := by omega
        simp only [b64DecodeGen]
        rw [if_neg (by simp [hne3]), if_pos (by simp)]
        simp only [h1, h2, h3, e1, e2]
  | a :: b :: c0 :: rest, h, i, c => by
      have ha : a < 256 := h a (by simp)
      have hb : b < 256 := h b (by simp)
      have hc0 : c0 < 256 := h c0 (by simp)
      have hrest : ∀ x ∈ rest, x < 256 := fun x hx => h x (by simp [hx])
      have h1 := b64Val_b64Index (a / 4) (by omega)
      have h2 := b64Val_b64Index (a % 4 * 16 + b / 16) (by omega)
      have h3 := b64Val_b64Index (b % 16 * 4 + c0 / 64) (by omega)
      have h4 := b64Val_b64Index (c0 % 64) (by omega)
      have hne3 := b64Index_ne_61 (b % 16 * 4 + c0 / 64)
      have hne4 := b64Index_ne_61 (c0 % 64)
      have ihr := b64url_roundtrip rest hrest
      simp only [base64urlEncode, base64urlDecode] at ihr ⊢
      simp only [b64EncodeGen]
      rcases i with - | - | - | - | i0
      · simp only [List.set_cons_zero, b64DecodeGen]
        rw [if_neg (by simp [hne3]), if_neg (by simp [hne4]), h2, h3, h4, ihr]
        rcases hVc : b64ValGen 45 95 c with - | x
        · left; rfl
        · right
          refine ⟨_, rfl, Or.inl ⟨by simp, ?_⟩⟩
          intro k hk
          exact consAgree3 _ _ _ _ _ _ rest k (by omega)
      · simp only [List.set_cons_succ, List.set_cons_zero, b64DecodeGen]
        rw [if_neg (by simp [hne3]), if_neg (by simp [hne4]), h1, h3, h4, ihr]
        rcases hVc : b64ValGen 45 95 c with - | x
        · left; rfl
        · right
          refine ⟨_, rfl, Or.inl ⟨by simp, ?_⟩⟩
          intro k hk
          exact consAgree3 _ _ _ _ _ _ rest k (by omega)
      · simp only [List.set_cons_succ, List.set_cons_zero, b64DecodeGen]
        rw [if_neg (by simp [hne4]), if_neg (by simp [hne4]), h1, h2, h4, ihr]
        rcases hVc : b64ValGen 45 95 c with - | x
        · left; rfl
        · right
          refine ⟨_, rfl, Or.inl ⟨by simp, ?_⟩⟩
          intro k hk
          exact consAgree3 _ _ _ _ _ _ rest k (by omega)
      · by_cases hc61 : c = 61
        · subst hc61
          simp only [List.set_cons_succ, List.set_cons_zero]
          by_cases hre : rest = []
          · subst hre
            simp only [b64EncodeGen, b64DecodeGen]
            rw [if_neg (by simp [hne3]), if_pos (by simp), h1, h2, h3]
            right
            refine ⟨_, rfl, Or.inr (by simp)⟩
          · have henc := b64EncodeGen_ne_nil 45 95 rest hre
            simp only [b64DecodeGen]
            rw [if_neg (by simp [hne3]), if_neg (by simp [henc]), h1, h2, h3, b64Val_61]
            left; rfl
        · simp only [List.set_cons_succ, List.set_cons_zero, b64DecodeGen]
          rw [if_neg (by simp [hne3]), if_neg (by simp [hc61]), h1, h2, h3, ihr]
          rcases hVc : b64ValGen 45 95 c with - | x
          · left; rfl
          · right
            refine ⟨_, rfl, Or.inl ⟨by simp, ?_⟩⟩
            intro k hk
            exact consAgree3 _ _ _ _ _ _ rest k (by omega)
      · simp only [List.set_cons_succ, b64DecodeGen]
        rw [if_neg (by simp [hne3]), if_neg (by simp [hne4]), h1, h2, h3, h4]
        have ihl := b64url_local rest hrest i0 c
        simp only [base64urlEncode, base64urlDecode] at ihl
        rcases ihl with hnone | ⟨t'', ht'', hprop⟩
        · rw [hnone]
          left; rfl
        · rw [ht'']
          right
          refine ⟨_, rfl, ?_⟩
          have e1 : a / 4 * 4 + (a % 4 * 16 + b / 16) / 16 = a := by omega
          have e2 : (a % 4 * 16 + b / 16) % 16 * 16 + (b % 16 * 4 + c0 / 64) / 4 = b := by
            omega
          have e3 : (b % 16 * 4 + c0 / 64) % 4 * 64 + c0 % 64 = c0 := by omega
          rcases hprop with ⟨hlen, hagree⟩ | hpar
          · refine Or.inl ⟨by simp [hlen], ?_⟩
            intro k hk
            have hw : 3 * ((i0 + 4) / 4) = 3 * (i0 / 4) + 3 := by omega
            rw [hw] at hk
            rcases k with - | - | - | k0
            · simp [e1]
            · simp [e2]
            · simp [e3]
            · simp only [List.getElem?_cons_succ]
              exact hagree k0 (by omega)
          · refine Or.inr ?_
            simp only [List.length_cons]
            omega

/-- Decrypting an encryption under the same context returns the
plaintext. -/
theorem crypto_roundtrip (cm : CryptoManager) (p : List Nat) (hp : ∀ b ∈ p, b < 256) :
    CryptoManager.decrypt cm (CryptoManager.encrypt cm p) = p := by
  unfold CryptoManager.decrypt CryptoManager.encrypt
  rw [b64url_roundtrip _ (fernetEncrypt_bytes_lt cm.key p)]
  simp only [fernet_roundtrip cm.key p hp]

/-- Modifying one byte of a ciphertext yields, on decryption, either the
original plaintext (when the lenient base64 decoding is unchanged) or
the failure sentinel, never any other plaintext. -/
theorem crypto_flip (cm : CryptoManager) (p : List Nat) (hp : ∀ b ∈ p, b < 256)
    (i c : Nat) :
    CryptoManager.decrypt cm ((CryptoManager.encrypt cm p).set i c) = p ∨
    CryptoManager.decrypt cm ((CryptoManager.encrypt cm p).set i c) = decryptFailedSentinel := by
  unfold CryptoManager.decrypt CryptoManager.encrypt
  rcases b64url_local (fernetEncrypt cm.key p) (fernetEncrypt_bytes_lt cm.key p) i c with
    hnone | ⟨t', ht', hprop⟩
  · rw [hnone]
    right; rfl
  · rw [ht']
    rcases hprop with ⟨hlen, hagree⟩ | hpar
    · rcases fernetDecrypt_window cm.key p t' (3 * (i / 4)) hlen hagree with hd | rfl
      · simp only [hd]
        right; trivial
      · simp only [fernet_roundtrip cm.key p hp]
        left; trivial
    · have hodd : t'.length % 2 = 1 := by
        have := fernetEncrypt_length cm.key p
        omega
      simp only [fernetDecrypt_odd cm.key t' hodd]
      right; trivial

/-- Every ciphertext is at least 68 characters long. -/
theorem encrypt_length_ge (cm : CryptoManager) (m : List Nat) :
    50 ≤ (CryptoManager.encrypt cm m).length := by
  have h1 := b64EncodeGen_length_ge 45 95 (fernetEncrypt cm.key m)
  have h2 := fernetEncrypt_length cm.key m
  unfold CryptoManager.encrypt base64urlEncode
  omega

/-- A ciphertext never equals a string shorter than 50 characters; in
particular it never equals a call-control token. -/
theorem encrypt_ne_short (cm : CryptoManager) (m tok : List Nat) (h : tok.length < 50) :
    CryptoManager.encrypt cm m ≠ tok := by
  intro he
  have := encrypt_length_ge cm m
  rw [he] at this
  omega

/-- A packet whose type is not the call token leaves the node state
unchanged. -/
theorem handle_packet_state_not_call (cm : CryptoManager) (s : NodeState) (packet : Packet)
    (hne : packet.ptype ≠ some tokCall) :
    (handle_packet cm s packet).1 = s := by
  simp only [handle_packet]
  by_cases h1 : packet.ptype = some tokText
  · rw [if_pos h1]
  · rw [if_neg h1, if_neg hne]
    by_cases h3 : packet.ptype = some tokAudio
    · rw [if_pos h3]
      split
      · rfl
      · rfl
    · rw [if_neg h3]
      by_cases h4 : packet.ptype = some tokLink
      · rw [if_pos h4]
      · rw [if_neg h4]

/-- An inbound call_accepted sets the in-call flag, from any prior state
and regardless of the sender. -/
theorem handle_packet_call_accepted (cm : CryptoManager) (s : NodeState) (packet : Packet)
    (ht : packet.ptype = some tokCall) (hm : packet.message = some tokCallAccepted) :
    (handle_packet cm s packet).1 = { s with in_call := true } := by
  simp only [handle_packet]
  rw [if_neg (by rw [ht]; decide), if_pos ht, if_neg (by rw [hm]; decide), if_pos hm]

/-- An inbound call_ended resets the call state, from any prior state
and regardless of the sender. -/
theorem handle_packet_call_ended (cm : CryptoManager) (s : NodeState) (packet : Packet)
    (ht : packet.ptype = some tokCall) (hm : packet.message = some tokCallEnded) :
    (handle_packet cm s packet).1 = { s with in_call := false, call_partner := none } := by
  simp only [handle_packet]
  rw [if_neg (by rw [ht]; decide), if_pos ht, if_neg (by rw [hm]; decide),
    if_neg (by rw [hm]; decide), if_pos hm]

/-- A call packet with any payload other than call_accepted and
call_ended leaves the node state unchanged; this includes call_request,
call_rejected and a missing payload. -/
theorem handle_packet_call_other (cm : CryptoManager) (s : NodeState) (packet : Packet)
    (ht : packet.ptype = some tokCall)
    (hm1 : packet.message ≠ some tokCallAccepted) (hm2 : packet.message ≠ some tokCallEnded) :
    (handle_packet cm s packet).1 = s := by
  simp only [handle_packet]
  rw [if_neg (by rw [ht]; decide), if_pos ht]
  by_cases hreq : packet.message = some tokCallRequest
  · rw [if_pos hreq]
  · rw [if_neg hreq, if_neg hm1, if_neg hm2]

/-- The packet handler never changes the running flag. -/
theorem handle_packet_running (cm : CryptoManager) (s : NodeState) (packet : Packet) :
    (handle_packet cm s packet).1.running = s.running := by
  by_cases ht : packet.ptype = some tokCall
  · by_cases hm1 : packet.message = some tokCallAccepted
    · rw [handle_packet_call_accepted cm s packet ht hm1]
    · by_cases hm2 : packet.message = some tokCallEnded
      · rw [handle_packet_call_ended cm s packet ht hm2]
      · rw [handle_packet_call_other cm s packet ht hm1 hm2]
  · rw [handle_packet_state_not_call cm s packet ht]

/-- One receive-loop iteration never changes the running flag. -/
theorem listenStep_running (cm : CryptoManager) (s : NodeState) (d : Datagram) :
    ((listenStep cm s d).1).running = s.running := by
  cases d with
  | malformed => rfl
  | valid p => exact handle_packet_running cm s p

/-- While the running flag is set, the guarded receive loop processes
every datagram and the flag stays set: no datagram content stops it. -/
theorem listenRun_all (cm : CryptoManager) : ∀ (ds : List Datagram) (s : NodeState),
    s.running = true →
    listenRun cm s ds = listenAll cm s ds ∧ (listenAll cm s ds).1.running = true
  | [], s, h => ⟨rfl, h⟩
  | d :: ds, s, h => by
      have hstep : ((listenStep cm s d).1).running = true := by
        rw [listenStep_running]; exact h
      have ih := listenRun_all cm ds (listenStep cm s d).1 hstep
      constructor
      · simp only [listenRun, listenAll, if_pos h]
        rw [ih.1]
      · simp only [listenAll]
        exact ih.2

/-- Every datagram that send_message emits carries the encryption of the
given message in its message field. -/
theorem send_message_mem (cm : CryptoManager) (s : NodeState) (r m ty now : List Nat)
    (ok : Bool) (ip : List Nat) (port : Nat) (packet : Packet)
    (hmem : Event.sent ip port packet ∈ (send_message cm s r m ty now ok).2) :
    packet.message = some (CryptoManager.encrypt cm m) := by
  unfold send_message at hmem
  cases hdg : dictGet s.peers r with
  | none => rw [hdg] at hmem; simp at hmem
  | some v =>
      obtain ⟨ip', port'⟩ := v
      rw [hdg] at hmem
      cases ok with
      | false => simp at hmem
      | true =>
          simp at hmem
          obtain ⟨-, -, rfl⟩ := hmem
          rfl

/-- Datagrams emitted by start_call come from its send_message call. -/
theorem start_call_events (cm : CryptoManager) (s : NodeState) (r now : List Nat) (ok : Bool) :
    (start_call cm s r now ok).2.2 =
      if s.in_call then [] else (send_message cm s r tokCallRequest tokCall now ok).2 := by
  by_cases h : s.in_call = true
  · simp only [start_call, if_pos h]
  · simp only [start_call, if_neg h]
    split
    · rfl
    · rfl

/-- Datagrams emitted by accept_call come from its send_message call. -/
theorem accept_call_events (cm : CryptoManager) (s : NodeState) (caller now : List Nat)
    (ok : Bool) :
    (accept_call cm s caller now ok).2.2 =
      if s.in_call then []
      else (send_message cm { s with in_call := true, call_partner := some caller } caller
        tokCallAccepted tokCall now ok).2 ++ [Event.audioStartRecording] := by
  by_cases h : s.in_call = true
  · simp only [accept_call, if_pos h]
  · simp only [accept_call, if_neg h]

/-- Datagrams emitted by end_call come from its send_message call. -/
theorem end_call_events (cm : CryptoManager) (s : NodeState) (now : List Nat) (ok : Bool) :
    (end_call cm s now ok).2 =
      if s.in_call then
        (match s.call_partner with
         | some p => (send_message cm s p tokCallEnded tokCall now ok).2
         | none => []) ++ [Event.audioStopRecording]
      else [] := by
  by_cases h : s.in_call = true
  · simp only [end_call, if_pos h]
  · simp only [end_call, if_neg h]

/-- Claim C4: encryption round trip: for every plaintext byte string and
every CipherContext, decrypting the encryption of the plaintext under
the same context returns the plaintext. -/
theorem c4_encrypt_decrypt_roundtrip (cm : CryptoManager) (p : List Nat)
    (hp : ∀ b ∈ p, b < 256) :
    CryptoManager.decrypt cm (CryptoManager.encrypt cm p) = p :=
  crypto_roundtrip cm p hp

/-- Witness for claim C4 at the plaintext hello and key 0. -/
theorem c4_witness : (∀ b ∈ strBytes "hello", b < 256) ∧
    CryptoManager.decrypt cm0 (CryptoManager.encrypt cm0 (strBytes "hello")) =
      strBytes "hello" :=
  ⟨by decide, c4_encrypt_decrypt_roundtrip cm0 (strBytes "hello") (by decide)⟩

/-- Claim C7 as amended: modifying any single byte of a ciphertext
yields, on decryption, either the failure sentinel or the original
plaintext (when the modification does not change the leniently decoded
token), never any other plaintext. -/
theorem c7_tamper_amended (cm : CryptoManager) (p : List Nat) (hp : ∀ b ∈ p, b < 256)
    (i c : Nat) :
    CryptoManager.decrypt cm ((CryptoManager.encrypt cm p).set i c) = p ∨
    CryptoManager.decrypt cm ((CryptoManager.encrypt cm p).set i c) = decryptFailedSentinel :=
  crypto_flip cm p hp i c

/-- Witness for claim C7 at the plaintext a, key 0, position 5. -/
theorem c7_witness : (∀ b ∈ strBytes "a", b < 256) ∧
    (CryptoManager.decrypt cm0 ((CryptoManager.encrypt cm0 (strBytes "a")).set 5 0) =
        strBytes "a" ∨
     CryptoManager.decrypt cm0 ((CryptoManager.encrypt cm0 (strBytes "a")).set 5 0) =
        decryptFailedSentinel) :=
  ⟨by decide, c7_tamper_amended cm0 (strBytes "a") (by decide) 5 0⟩

/-- Counterexample to claim C7 as stated: changing byte 66 of the
ciphertext of the empty plaintext to 66 is a genuine modification, yet
decrypt returns the original plaintext and not the failure sentinel,
because the changed character sits in the unvalidated trailing bits of
the final base64 group. -/
theorem c7_counterexample :
    (CryptoManager.encrypt cm0 []).set 66 66 ≠ CryptoManager.encrypt cm0 [] ∧
    CryptoManager.decrypt cm0 ((CryptoManager.encrypt cm0 []).set 66 66) = [] ∧
    CryptoManager.decrypt cm0 ((CryptoManager.encrypt cm0 []).set 66 66) ≠
      decryptFailedSentinel := by
  decide

/-- Claim C9: a packet whose type field is missing or not one of text,
call, audio, link leaves the node state unchanged and invokes no
callback. -/
theorem c9_unknown_type_noop (cm : CryptoManager) (s : NodeState) (packet : Packet)
    (h1 : packet.ptype ≠ some tokText) (h2 : packet.ptype ≠ some tokCall)
    (h3 : packet.ptype ≠ some tokAudio) (h4 : packet.ptype ≠ some tokLink) :
    handle_packet cm s packet = (s, []) := by
  simp only [handle_packet]
  rw [if_neg h1, if_neg h2, if_neg h3, if_neg h4]

/-- Witness for claim C9 at a packet with no type field. -/
theorem c9_witness :
    handle_packet cm0 demoIdle
      { ptype := none, sender := none, recipient := none, message := none,
        timestamp := none } = (demoIdle, []) :=
  c9_unknown_type_noop cm0 demoIdle
    { ptype := none, sender := none, recipient := none, message := none, timestamp := none }
    (by decide) (by decide) (by decide) (by decide)

/-- Claim C6: send_message returns failure without transmitting when the
recipient is absent from the peer table; with the recipient present it
returns false, without raising, when the socket write fails, and
otherwise returns true having emitted exactly one packet whose message
field is the encryption of the text and whose timestamp is the current
time. -/
theorem c6_send_message_errors (cm : CryptoManager) (s : NodeState)
    (recipient message msg_type now : List Nat) (sendOk : Bool) :
    (dictGet s.peers recipient = none →
      send_message cm s recipient message msg_type now sendOk = (false, [])) ∧
    (∀ ip port, dictGet s.peers recipient = some (ip, port) → sendOk = false →
      send_message cm s recipient message msg_type now sendOk = (false, [])) ∧
    (∀ ip port, dictGet s.peers recipient = some (ip, port) → sendOk = true →
      send_message cm s recipient message msg_type now sendOk =
        (true, [Event.sent ip port
          { ptype := some msg_type, sender := some s.username, recipient := some recipient,
            message := some (CryptoManager.encrypt cm message),
            timestamp := some now }])) := by
  refine ⟨fun h => ?_, fun ip port h hok => ?_, fun ip port h hok => ?_⟩
  · simp [send_message, h]
  · subst hok
    simp [send_message, h]
  · subst hok
    simp [send_message, h]

/-- Witness for claim C6 at an absent recipient. -/
theorem c6_witness :
    send_message cm0 demoIdle (strBytes "zoe") (strBytes "hi") tokText (strBytes "t") true =
      (false, []) :=
  (c6_send_message_errors cm0 demoIdle (strBytes "zoe") (strBytes "hi") tokText
    (strBytes "t") true).1 (by decide)

/-- Claim C1, code bug: start_call sends a call packet whose message
field is the encryption of call_request, but the receiving handler
compares the field against the literal token, so an idle node with its
call callback registered neither fires the callback nor changes state:
the call-request round trip of the specification never happens. -/
theorem c1_call_request_bug :
    start_call cm7 demoAlice (strBytes "bob") (strBytes "t0") true =
      (true, { demoAlice with call_partner := some (strBytes "bob") },
        [Event.sent hostA 9001
          { ptype := some tokCall, sender := some (strBytes "alice"),
            recipient := some (strBytes "bob"),
            message := some (CryptoManager.encrypt cm7 tokCallRequest),
            timestamp := some (strBytes "t0") }]) ∧
    handle_packet cm0 demoIdle
      { ptype := some tokCall, sender := some (strBytes "alice"),
        recipient := some (strBytes "bob"),
        message := some (CryptoManager.encrypt cm7 tokCallRequest),
        timestamp := some (strBytes "t0") } = (demoIdle, []) := by
  decide

/-- Claim C2, code bug: during an active call the audio packet carries
the encryption of the base64 chunk, not the raw base64 chunk: the chunk
is passed through the CipherContext, although the receiving audio branch
base64-decodes the field without decrypting it. -/
theorem c2_audio_encrypted_bug :
    send_audio cm0 demoActive [0, 1, 2] (strBytes "t1") true =
      [Event.sent hostA 9001
        { ptype := some tokAudio, sender := some (strBytes "alice"),
          recipient := some (strBytes "bob"),
          message := some (CryptoManager.encrypt cm0 (base64Encode [0, 1, 2])),
          timestamp := some (strBytes "t1") }] ∧
    CryptoManager.encrypt cm0 (base64Encode [0, 1, 2]) ≠ base64Encode [0, 1, 2] := by
  decide

/-- Counterexample to claim C3 as stated: an inbound call_accepted
received while Idle changes the call state, setting the in-call flag. -/
theorem c3_counterexample :
    demoIdle.in_call = false ∧ demoIdle.call_partner = none ∧
    (handle_packet cm0 demoIdle
      { ptype := some tokCall, sender := some (strBytes "eve"), recipient := none,
        message := some tokCallAccepted, timestamp := none }).1 ≠ demoIdle := by
  decide

/-- Claim C3 as amended: the handler ignores the sender of call packets
and keeps no ringing state: call_accepted sets the in-call flag from any
state and any sender, call_ended resets the call state from any state
and any sender, every other call payload, including call_request and
call_rejected, changes nothing, and non-call packets change nothing;
locally, start_call changes state only when the in-call flag is clear
and the send succeeds, accept_call exactly when the flag is clear, and
end_call exactly when the flag is set. -/
theorem c3_transition_totality_amended (cm : CryptoManager) (s : NodeState) (packet : Packet)
    (r caller now : List Nat) (ok : Bool) :
    (packet.ptype ≠ some tokCall → (handle_packet cm s packet).1 = s) ∧
    (packet.ptype = some tokCall → packet.message = some tokCallAccepted →
      (handle_packet cm s packet).1 = { s with in_call := true }) ∧
    (packet.ptype = some tokCall → packet.message = some tokCallEnded →
      (handle_packet cm s packet).1 = { s with in_call := false, call_partner := none }) ∧
    (packet.ptype = some tokCall → packet.message ≠ some tokCallAccepted →
      packet.message ≠ some tokCallEnded → (handle_packet cm s packet).1 = s) ∧
    (s.in_call = true → (start_call cm s r now ok).2.1 = s) ∧
    (s.in_call = false → (start_call cm s r now ok).2.1 =
      if (send_message cm s r tokCallRequest tokCall now ok).1 then
        { s with call_partner := some r } else s) ∧
    (s.in_call = true → (accept_call cm s caller now ok).2.1 = s) ∧
    (s.in_call = false → (accept_call cm s caller now ok).2.1 =
      { s with in_call := true, call_partner := some caller }) ∧
    (s.in_call = true → (end_call cm s now ok).1 =
      { s with in_call := false, call_partner := none }) ∧
    (s.in_call = false → (end_call cm s now ok).1 = s) := by
  refine ⟨handle_packet_state_not_call cm s packet,
    fun ht hm => handle_packet_call_accepted cm s packet ht hm,
    fun ht hm => handle_packet_call_ended cm s packet ht hm,
    fun ht hm1 hm2 => handle_packet_call_other cm s packet ht hm1 hm2,
    fun h => ?_, fun h => ?_, fun h => ?_, fun h => ?_, fun h => ?_, fun h => ?_⟩
  · simp only [start_call]
    rw [if_pos h]
  · have hni : ¬ s.in_call = true := by simp [h]
    simp only [start_call]
    rw [if_neg hni]
    by_cases hs : (send_message cm s r tokCallRequest tokCall now ok).1 = true
    · rw [if_pos hs, if_pos hs]
    · rw [if_neg hs, if_neg hs]
  · simp only [accept_call]
    rw [if_pos h]
  · have hni : ¬ s.in_call = true := by simp [h]
    simp only [accept_call]
    rw [if_neg hni]
  · simp only [end_call]
    rw [if_pos h]
  · have hni : ¬ s.in_call = true := by simp [h]
    simp only [end_call]
    rw [if_neg hni]

/-- Witness for the amended claim C3: the call_accepted clause at an
idle node. -/
theorem c3_witness :
    (handle_packet cm0 demoIdle
      { ptype := some tokCall, sender := some (strBytes "eve"), recipient := none,
        message := some tokCallAccepted, timestamp := none }).1 =
      { demoIdle with in_call := true } :=
  ((c3_transition_totality_amended cm0 demoIdle
    { ptype := some tokCall, sender := some (strBytes "eve"), recipient := none,
      message := some tokCallAccepted, timestamp := none }
    [] [] [] true).2.1) rfl rfl

/-- Counterexample to claim C5 as stated: with a pending outbound call
recorded (call partner set, so not Idle) but the in-call flag still
clear, start_call to a different peer succeeds and overwrites the
partner instead of failing with no state change. -/
theorem c5_counterexample :
    demoPending.in_call = false ∧ demoPending.call_partner = some (strBytes "bob") ∧
    (start_call cm0 demoPending (strBytes "carol") (strBytes "t2") true).1 = true ∧
    (start_call cm0 demoPending (strBytes "carol") (strBytes "t2") true).2.1.call_partner =
      some (strBytes "carol") := by
  decide

/-- Claim C5 as amended: start_call fails and changes nothing exactly
when the in-call flag is set; with the flag clear it proceeds even if a
remote party is already pending, overwriting the partner on success;
accept_call fails only when the in-call flag is set, regardless of which
party is associated, and otherwise activates the call with the new
caller; end_call is a no-op whenever the in-call flag is clear. -/
theorem c5_call_guards_amended (cm : CryptoManager) (s : NodeState)
    (r caller now : List Nat) (ok : Bool) :
    (s.in_call = true → start_call cm s r now ok = (false, s, [])) ∧
    (s.in_call = false → (start_call cm s r now ok).2.1 =
      if (send_message cm s r tokCallRequest tokCall now ok).1 then
        { s with call_partner := some r } else s) ∧
    (s.in_call = true → accept_call cm s caller now ok = (false, s, [])) ∧
    (s.in_call = false → (accept_call cm s caller now ok).1 = true ∧
      (accept_call cm s caller now ok).2.1 =
        { s with in_call := true, call_partner := some caller }) ∧
    (s.in_call = false → end_call cm s now ok = (s, [])) := by
  refine ⟨fun h => ?_, fun h => ?_, fun h => ?_, fun h => ⟨?_, ?_⟩, fun h => ?_⟩
  · simp only [start_call]
    rw [if_pos h]
  · have hni : ¬ s.in_call = true := by simp [h]
    simp only [start_call]
    rw [if_neg hni]
    by_cases hs : (send_message cm s r tokCallRequest tokCall now ok).1 = true
    · rw [if_pos hs, if_pos hs]
    · rw [if_neg hs, if_neg hs]
  · simp only [accept_call]
    rw [if_pos h]
  · have hni : ¬ s.in_call = true := by simp [h]
    simp only [accept_call]
    rw [if_neg hni]
  · have hni : ¬ s.in_call = true := by simp [h]
    simp only [accept_call]
    rw [if_neg hni]
  · have hni : ¬ s.in_call = true := by simp [h]
    simp only [end_call]
    rw [if_neg hni]

/-- Witness for the amended claim C5: start_call refused during an
active call. -/
theorem c5_witness :
    demoActive.in_call = true ∧
    start_call cm0 demoActive (strBytes "bob") (strBytes "t") true =
      (false, demoActive, []) :=
  ⟨rfl, (c5_call_guards_amended cm0 demoActive (strBytes "bob") [] (strBytes "t") true).1 rfl⟩

/-- Counterexample to claim C8 as stated: a valid JSON datagram that
lacks the sender and message fields is not dropped: the handler invokes
the message callback with the decryption failure sentinel. -/
theorem c8_counterexample :
    (listenStep cm0 demoIdle (Datagram.valid
      { ptype := some tokText, sender := none, recipient := none, message := none,
        timestamp := none })).2 =
      [Event.msgCb none decryptFailedSentinel tokReceived] ∧
    (listenStep cm0 demoIdle (Datagram.valid
      { ptype := some tokText, sender := none, recipient := none, message := none,
        timestamp := none })).2 ≠ [] := by
  decide

/-- Claim C8 as amended: a datagram whose payload is not valid JSON is
dropped with no effect and the loop continues; missing fields are not
validated, the packet is dispatched with absent values, and a packet
with no type field has no effect; no step changes the running flag, and
while the flag is set the loop processes every datagram of its input. -/
theorem c8_receive_loop_amended (cm : CryptoManager) (s : NodeState) (packet : Packet)
    (ds : List Datagram) :
    listenStep cm s Datagram.malformed = (s, []) ∧
    (∀ d, ((listenStep cm s d).1).running = s.running) ∧
    (packet.ptype = none → listenStep cm s (Datagram.valid packet) = (s, [])) ∧
    (s.running = true →
      listenRun cm s ds = listenAll cm s ds ∧ (listenAll cm s ds).1.running = true) := by
  refine ⟨rfl, listenStep_running cm s, fun h => ?_, fun h => listenRun_all cm ds s h⟩
  show handle_packet cm s packet = (s, [])
  simp only [handle_packet]
  rw [if_neg (by rw [h]; decide), if_neg (by rw [h]; decide), if_neg (by rw [h]; decide),
    if_neg (by rw [h]; decide)]

/-- Witness for the amended claim C8 at a malformed datagram. -/
theorem c8_witness :
    listenRun cm0 demoIdle [Datagram.malformed] =
      listenAll cm0 demoIdle [Datagram.malformed] ∧
    (listenAll cm0 demoIdle [Datagram.malformed]).1.running = true :=
  (c8_receive_loop_amended cm0 demoIdle
    { ptype := none, sender := none, recipient := none, message := none, timestamp := none }
    [Datagram.malformed]).2.2.2 rfl

/-- Claim C10: every call-signaling datagram emitted by start_call,
accept_call or end_call carries the encryption of its control token in
the message field, never the literal token. -/
theorem c10_call_tokens_encrypted (cm : CryptoManager) (s : NodeState)
    (r caller now : List Nat) (ok : Bool) (ip : List Nat) (port : Nat) (packet : Packet) :
    (Event.sent ip port packet ∈ (start_call cm s r now ok).2.2 →
      packet.message = some (CryptoManager.encrypt cm tokCallRequest) ∧
      packet.message ≠ some tokCallRequest) ∧
    (Event.sent ip port packet ∈ (accept_call cm s caller now ok).2.2 →
      packet.message = some (CryptoManager.encrypt cm tokCallAccepted) ∧
      packet.message ≠ some tokCallAccepted) ∧
    (Event.sent ip port packet ∈ (end_call cm s now ok).2 →
      packet.message = some (CryptoManager.encrypt cm tokCallEnded) ∧
      packet.message ≠ some tokCallEnded) := by
  refine ⟨fun hmem => ?_, fun hmem => ?_, fun hmem => ?_⟩
  · rw [start_call_events] at hmem
    by_cases h : s.in_call = true
    · rw [if_pos h] at hmem
      simp at hmem
    · rw [if_neg h] at hmem
      have he := send_message_mem cm s r tokCallRequest tokCall now ok ip port packet hmem
      refine ⟨he, ?_⟩
      rw [he]
      simp only [ne_eq, Option.some.injEq]
      exact encrypt_ne_short cm tokCallRequest tokCallRequest (by decide)
  · rw [accept_call_events] at hmem
    by_cases h : s.in_call = true
    · rw [if_pos h] at hmem
      simp at hmem
    · rw [if_neg h] at hmem
      rw [List.mem_append] at hmem
      rcases hmem with hmem | hmem
      · have he := send_message_mem cm _ caller tokCallAccepted tokCall now ok ip port
          packet hmem
        refine ⟨he, ?_⟩
        rw [he]
        simp only [ne_eq, Option.some.injEq]
        exact encrypt_ne_short cm tokCallAccepted tokCallAccepted (by decide)
      · simp at hmem
  · rw [end_call_events] at hmem
    by_cases h : s.in_call = true
    · rw [if_pos h] at hmem
      cases hcp : s.call_partner with
      | none =>
          rw [hcp] at hmem
          simp at hmem
      | some p =>
          rw [hcp] at hmem
          simp only [List.mem_append] at hmem
          rcases hmem with hmem | hmem
          · have he := send_message_mem cm s p tokCallEnded tokCall now ok ip port
              packet hmem
            refine ⟨he, ?_⟩
            rw [he]
            simp only [ne_eq, Option.some.injEq]
            exact encrypt_ne_short cm tokCallEnded tokCallEnded (by decide)
          · simp at hmem
    · rw [if_neg h] at hmem
      simp at hmem

/-- Witness for claim C10: the packet sent by a concrete start_call. -/
theorem c10_witness :
    ({ ptype := some tokCall, sender := some (strBytes "alice"),
       recipient := some (strBytes "bob"),
       message := some (CryptoManager.encrypt cm0 tokCallRequest),
       timestamp := some (strBytes "t") } : Packet).message =
      some (CryptoManager.encrypt cm0 tokCallRequest) ∧
    ({ ptype := some tokCall, sender := some (strBytes "alice"),
       recipient := some (strBytes "bob"),
       message := some (CryptoManager.encrypt cm0 tokCallRequest),
       timestamp := some (strBytes "t") } : Packet).message ≠ some tokCallRequest :=
  (c10_call_tokens_encrypted cm0 demoAlice (strBytes "bob") [] (strBytes "t") true
    hostA 9001
    { ptype := some tokCall, sender := some (strBytes "alice"),
      recipient := some (strBytes "bob"),
      message := some (CryptoManager.encrypt cm0 tokCallRequest),
      timestamp := some (strBytes "t") }).1 (by decide)
